import Mathlib

/-!
Verification of the ics-to-timew calendar-event recurrence engine.

The Python sources parse_ics.py and parse_iso8601_periods.py are embedded
shallowly: regular-expression field extraction becomes explicit scanning over
lists of characters, Python exceptions become an explicit error monad,
datetimes and durations become integers counted in seconds, and the external
dateutil and pytz behaviour that the sources delegate to is modelled from the
specification where noted in the corresponding doc comments.
-/

/-- Python exceptions raised by the embedded code paths. -/
inductive PyErr where
  | keyError (key : List Char)
  | valueError
  | attributeError
deriving DecidableEq

deriving instance DecidableEq for Except

/-- Python truthiness of an optional string: None and the empty string are falsy. -/
def pyTruthyS : Option (List Char) → Bool
  | some (_ :: _) => true
  | _ => false

/-- Python truthiness of an optional integer: None and 0 are falsy. -/
def pyTruthyI : Option Int → Bool
  | some n => decide (n ≠ 0)
  | none => false

/-- Decimal value of a digit string, as computed by Python int or float on a
    run of decimal digits. -/
def digitsVal (s : List Char) : Nat :=
  s.foldl (fun a c => 10 * a + (c.toNat - 48)) 0

/-- Python int(s): an optional minus sign followed by decimal digits; anything
    else raises ValueError.  (Surrounding whitespace, which Python would also
    accept, never occurs in the tokens the sources pass in.) -/
def pyInt (s : List Char) : Except PyErr Int :=
  match s with
  | '-' :: rest =>
    if !rest.isEmpty && rest.all Char.isDigit then .ok (-(digitsVal rest : Int))
    else .error .valueError
  | _ =>
    if !s.isEmpty && s.all Char.isDigit then .ok (digitsVal s : Int)
    else .error .valueError

/-- Helper for getRruleMatch: leftmost occurrence of key in the text; the
    captured value is everything after it up to the first semicolon or line
    end, which is what the lazy group of the pattern KEY=(.*?)($|;) matches
    under MULTILINE. -/
def findAfterKey (key : List Char) : List Char → Option (List Char)
  | [] => none
  | x :: rest =>
    if key.isPrefixOf (x :: rest) then
      some (((x :: rest).drop key.length).takeWhile (fun c => !(c == ';') && !(c == '\n')))
    else findAfterKey key rest

/-- Embeds getRruleMatch of parse_ics.py. -/
def getRruleMatch (rruleStr name : List Char) : Option (List Char) :=
  findAfterKey (name ++ ['=']) rruleStr

/-- Embeds the module-level dateutil_ids table of parse_ics.py: frequency names
    and the seven plain two-letter weekday codes, and nothing else. -/
def dateutil_ids (s : List Char) : Option Nat :=
  if s == "YEARLY".data then some 0
  else if s == "MONTHLY".data then some 1
  else if s == "WEEKLY".data then some 2
  else if s == "DAILY".data then some 3
  else if s == "HOURLY".data then some 4
  else if s == "MINUTELY".data then some 5
  else if s == "SECONDLY".data then some 6
  else if s == "MO".data then some 0
  else if s == "TU".data then some 1
  else if s == "WE".data then some 2
  else if s == "TH".data then some 3
  else if s == "FR".data then some 4
  else if s == "SA".data then some 5
  else if s == "SU".data then some 6
  else none

/-- Embeds getDateutilId: a falsy argument gives None, otherwise a dictionary
    lookup that raises KeyError when the key is absent. -/
def getDateutilId (obj : Option (List Char)) : Except PyErr (Option Nat) :=
  match obj with
  | none => .ok none
  | some s =>
    if s.isEmpty then .ok none
    else
      match dateutil_ids s with
      | some v => .ok (some v)
      | none => .error (.keyError s)

/-- Embeds the comma splitting performed inside getDateutilIds, the findall
    over the pattern of one lazy nonempty run of non-commas followed by a
    lookahead for a comma or the end: the nonempty runs between commas. -/
def splitCommasAux (cur : List Char) : List Char → List (List Char)
  | [] => if cur.isEmpty then [] else [cur.reverse]
  | c :: rest =>
    if c == ',' then
      if cur.isEmpty then splitCommasAux [] rest
      else cur.reverse :: splitCommasAux [] rest
    else splitCommasAux (c :: cur) rest

def splitCommas (s : List Char) : List (List Char) := splitCommasAux [] s

/-- Embeds getDateutilIds of parse_ics.py. -/
def getDateutilIds (objs : Option (List Char)) : Except PyErr (Option (List (Option Nat))) :=
  match objs with
  | none => .ok none
  | some s =>
    if s.isEmpty then .ok none
    else do
      let l ← (splitCommas s).mapM (fun o => getDateutilId (some o))
      pure (some l)

/-- The raw rule fields assigned in RepeatedEvent init before compilation.
    The bysetpos attribute is extracted with the key BYMONTH, exactly as in the
    source; interval and wkst already carry their falsy-value defaults (absent
    interval is the integer 1, represented here by none; absent wkst is MO). -/
structure RRuleFields where
  freq : Option (List Char)
  untilRaw : Option (List Char)
  count : Option (List Char)
  interval : Option (List Char)
  bysecond : Option (List Char)
  byminute : Option (List Char)
  byhour : Option (List Char)
  byday : Option (List Char)
  bymonthday : Option (List Char)
  byyearday : Option (List Char)
  byweekno : Option (List Char)
  bymonth : Option (List Char)
  bysetpos : Option (List Char)
  wkst : List Char
deriving DecidableEq

/-- Embeds the field-extraction assignments of RepeatedEvent init. -/
def extractRRuleFields (ruleStr : List Char) : RRuleFields :=
  ⟨getRruleMatch ruleStr ("FREQ".data),
   getRruleMatch ruleStr ("UNTIL".data),
   getRruleMatch ruleStr ("COUNT".data),
   (match getRruleMatch ruleStr ("INTERVAL".data) with
    | some (c :: cs) => some (c :: cs)
    | _ => none),
   getRruleMatch ruleStr ("BYSECOND".data),
   getRruleMatch ruleStr ("BYMINUTE".data),
   getRruleMatch ruleStr ("BYHOUR".data),
   getRruleMatch ruleStr ("BYDAY".data),
   getRruleMatch ruleStr ("BYMONTHDAY".data),
   getRruleMatch ruleStr ("BYYEARDAY".data),
   getRruleMatch ruleStr ("BYWEEKNO".data),
   getRruleMatch ruleStr ("BYMONTH".data),
   getRruleMatch ruleStr ("BYMONTH".data),
   (match getRruleMatch ruleStr ("WKST".data) with
    | some (c :: cs) => c :: cs
    | _ => "MO".data)⟩

/-- The identifier values obtained from the dateutil_ids table while building
    the dateutil rrule call. -/
structure CompiledIds where
  freqId : Option Nat
  wkstId : Option Nat
  byweeknoId : Option Nat
  bysetposIds : Option (List (Option Nat))
  bymonthIds : Option (List (Option Nat))
  bymonthdayIds : Option (List (Option Nat))
  byyeardayIds : Option (List (Option Nat))
  byweekdayIds : Option (List (Option Nat))
  byhourIds : Option (List (Option Nat))
  byminuteIds : Option (List (Option Nat))
  bysecondIds : Option (List (Option Nat))
deriving DecidableEq

/-- The identifier lookups performed while building the dateutil rrule call,
    in Python argument evaluation order; the first failing lookup raises
    KeyError. -/
def compileIds (f : RRuleFields) : Except PyErr CompiledIds := do
  let freqId ← getDateutilId f.freq
  let wkstId ← getDateutilId (some f.wkst)
  let bysetposIds ← getDateutilIds f.bysetpos
  let bymonthIds ← getDateutilIds f.bymonth
  let bymonthdayIds ← getDateutilIds f.bymonthday
  let byyeardayIds ← getDateutilIds f.byyearday
  let byweeknoId ← getDateutilId f.byweekno
  let byweekdayIds ← getDateutilIds f.byday
  let byhourIds ← getDateutilIds f.byhour
  let byminuteIds ← getDateutilIds f.byminute
  let bysecondIds ← getDateutilIds f.bysecond
  pure ⟨freqId, wkstId, byweeknoId, bysetposIds, bymonthIds, bymonthdayIds,
        byyeardayIds, byweekdayIds, byhourIds, byminuteIds, bysecondIds⟩

/-- The attributes of a constructed RepeatedEvent that the claims consult.
    ids is none exactly when the rule attribute is None (falsy rule string). -/
structure RepeatedEventModel where
  untilRaw : Option (List Char)
  count : Option Int
  intervalRaw : Option (List Char)
  ids : Option CompiledIds
deriving DecidableEq

def emptyRuleModel : RepeatedEventModel := ⟨none, none, none, none⟩

/-- Embeds the conversion int(self.count) if self.count else None. -/
def pyIntOpt : Option (List Char) → Except PyErr (Option Int)
  | none => .ok none
  | some s => if s.isEmpty then .ok none else (pyInt s).map some

/-- Embeds RepeatedEvent init: for a falsy rule expression the until, count and
    rule attributes are None; otherwise the fields are extracted, COUNT is
    converted with int, and the identifier lookups of the rrule call are
    performed.  Parsing the UNTIL value into a datetime and enumerating the
    compiled rule are performed by the external dateutil library and are
    modelled separately where a claim needs them. -/
def mkRepeatedEvent (ruleStr : List Char) : Except PyErr RepeatedEventModel :=
  match ruleStr with
  | [] => .ok emptyRuleModel
  | x :: rest =>
    match pyIntOpt (extractRRuleFields (x :: rest)).count with
    | .error e => .error e
    | .ok cnt =>
      match compileIds (extractRRuleFields (x :: rest)) with
      | .error e => .error e
      | .ok ids =>
        .ok ⟨(extractRRuleFields (x :: rest)).untilRaw, cnt,
             (extractRRuleFields (x :: rest)).interval, some ids⟩

/-- Embeds RepeatedEvent.isForever: false when until or count is truthy. -/
def RepeatedEventModel.isForever (re : RepeatedEventModel) : Bool :=
  !(pyTruthyS re.untilRaw || pyTruthyI re.count)

namespace IsoPeriods

/-- One position of the lazy scan for a maximal digit run followed by the
    terminator character.  tStop is true for the week and day patterns, whose
    prelude is a lazy run of non-T characters and therefore cannot cross a T;
    the hour, minute and second patterns scan with a lazy run of arbitrary
    characters. -/
def scanNum (tStop : Bool) (term : Char) : List Char → Option (List Char)
  | [] => none
  | x :: rest =>
    if tStop && x == 'T' then none
    else if x.isDigit then
      if ((x :: rest).dropWhile Char.isDigit).head? = some term then
        some ((x :: rest).takeWhile Char.isDigit)
      else scanNum tStop term rest
    else scanNum tStop term rest

/-- The search for a digit run followed by the terminator somewhere after a T:
    the greedy run before the T backtracks from the right, so the rightmost T
    is tried first and earlier Ts only on failure.  Because a digit run cannot
    contain a T and the terminator letter is never T, trying the rightmost T
    first and recursing leftwards is equivalent to the regex backtracking
    order, which this left-recursion with preference for the deeper result
    implements. -/
def searchAfterT (term : Char) : List Char → Option (List Char)
  | [] => none
  | x :: rest =>
    if x == 'T' then
      match searchAfterT term rest with
      | some run => some run
      | none => scanNum false term rest
    else searchAfterT term rest

/-- Suffixes of the text that start right after a newline. -/
def tailsAfterNL : List Char → List (List Char)
  | [] => []
  | c :: rest => if c == '\n' then rest :: tailsAfterNL rest else tailsAfterNL rest

def lineSuffixes (s : List Char) : List (List Char) := s :: tailsAfterNL s

/-- Try the anchored remainder pattern at each line start in order: a line
    start must carry a P, and the first line start where the remainder pattern
    succeeds wins. -/
def tryLineStarts (f : List Char → Option (List Char)) : List (List Char) → Option (List Char)
  | [] => none
  | t :: ts =>
    match t with
    | 'P' :: rest =>
      match f rest with
      | some run => some run
      | none => tryLineStarts f ts
    | _ => tryLineStarts f ts

/-- Search with the P anchor at a line start under MULTILINE: the pattern is
    tried at every line start, in order. -/
def searchPAnchored (f : List Char → Option (List Char)) (s : List Char) :
    Option (List Char) :=
  tryLineStarts f (lineSuffixes s)

def currentLine (s : List Char) : List Char := s.takeWhile fun c => !(c == '\n')

def searchWeeks (s : List Char) : Option (List Char) := searchPAnchored (scanNum true 'W') s

def searchDays (s : List Char) : Option (List Char) := searchPAnchored (scanNum true 'D') s

def searchHours (s : List Char) : Option (List Char) :=
  searchPAnchored (fun rest => searchAfterT 'H' (currentLine rest)) s

def searchMinutes (s : List Char) : Option (List Char) :=
  searchPAnchored (fun rest => searchAfterT 'M' (currentLine rest)) s

def searchSeconds (s : List Char) : Option (List Char) :=
  searchPAnchored (fun rest => searchAfterT 'S' (currentLine rest)) s

/-- Embeds parse of parse_iso8601_periods.py; the returned timedelta is
    represented by its total number of seconds. -/
def parse (s : List Char) : Int :=
  let wk := ((searchWeeks s).map digitsVal).getD 0
  let dy := ((searchDays s).map digitsVal).getD 0
  let hr := ((searchHours s).map digitsVal).getD 0
  let mi := ((searchMinutes s).map digitsVal).getD 0
  let se := ((searchSeconds s).map digitsVal).getD 0
  Int.ofNat (604800 * wk + 86400 * dy + 3600 * hr + 60 * mi + se)

end IsoPeriods

/-- Modelled from the spec: the pytz timezone interface the sources use.
    utcToLocal is astimezone into the zone, the wall-clock time of a UTC
    instant; localToUtc is normalize and localize followed by astimezone to
    UTC, the zone database resolution of a wall-clock time to an instant with
    the documented standard disambiguation of ambiguous times.  Instants and
    wall-clock datetimes are seconds counted from a common epoch. -/
structure SpecTimezone where
  utcToLocal : Int → Int
  localToUtc : Int → Int

/-- A date and time token as consumed by standardizeDatetime, already stripped
    of its TZID or VALUE=DATE qualifier: the parsed payload value and whether
    the token carried the UTC suffix Z. -/
structure DtToken where
  payload : Int
  isZulu : Bool
deriving DecidableEq

/-- Embeds the value computed by standardizeDatetime for one token: a zulu
    token is parsed as UTC and converted to the zone wall clock with the zone
    information dropped; any other token is parsed directly as a naive local
    value. -/
def standardizeTok (z : SpecTimezone) (t : DtToken) : Int :=
  if t.isZulu then z.utcToLocal t.payload else t.payload

/-- Embeds standardizeDatetime of parse_ics.py, which returns None for an
    absent token. -/
def standardizeDatetime (z : SpecTimezone) : Option DtToken → Option Int
  | none => none
  | some t => some (standardizeTok z t)

/-- Embeds datetimeToZulu of parse_ics.py: localize the naive value in the
    zone and convert to UTC; the formatted YYYYMMDDTHHMMSSZ string is
    represented by the UTC instant it denotes. -/
def datetimeToZulu (z : SpecTimezone) : Option Int → Option Int
  | none => none
  | some w => some (z.localToUtc w)

/-- The UTC zone: offset zero in both directions. -/
def zUtcModel : SpecTimezone := ⟨fun i => i, fun w => w⟩

/-- A zone with a daylight-saving fall-back at instant 0: UTC offset 7200
    before the transition, 3600 after it.  Wall-clock values in [3600, 7200)
    are ambiguous and resolve, per the standard disambiguation, to the
    standard-time instant. -/
def fallBackToLocal (i : Int) : Int := i + (if i < 0 then 7200 else 3600)

def fallBackToUtc (w : Int) : Int := w - (if w < 3600 then 7200 else 3600)

def fallBackZone : SpecTimezone := ⟨fallBackToLocal, fallBackToUtc⟩

/-- Embeds the dtend and duration derivation of Event init together with the
    subsequent read of the datetime_dtend attribute while formatting:
    datetime_duration is first computed from the DURATION token (the empty
    string for an absent token); datetime_dtend is the parsed DTEND when that
    token is truthy, else start plus duration when DURATION is truthy, else it
    is never assigned and the later attribute read raises AttributeError;
    finally, whenever DTEND is truthy, datetime_duration is overwritten with
    dtend minus dtstart.  Returns the pair of datetime_dtend and
    datetime_duration. -/
def eventDerive (z : SpecTimezone) (dtstartVal : Int) (dtend : Option DtToken)
    (duration : Option (List Char)) : Except PyErr (Int × Int) :=
  match dtend with
  | some t =>
    let e := standardizeTok z t
    .ok (e, e - dtstartVal)
  | none =>
    match duration with
    | some (c :: cs) =>
      .ok (dtstartVal + IsoPeriods.parse (c :: cs), IsoPeriods.parse (c :: cs))
    | _ => .error .attributeError

/-- Embeds Event.isAllDay: the start token begins with VALUE=DATE:, or both
    the DTEND and the DURATION token are falsy. -/
def eventIsAllDay (dtstartTok : List Char) (dtend : Option DtToken)
    (duration : Option (List Char)) : Bool :=
  ("VALUE=DATE:".data).isPrefixOf dtstartTok || (dtend.isNone && !(pyTruthyS duration))

/-- Modelled from the spec: the occurrence enumeration of a compiled rule is
    performed by the external dateutil library; the spec describes it as
    frequency and interval stepping from dtstart, filtered by the by-field
    constraints, bounded by until or count, ascending.  The model covers the
    fragment the claims exercise: frequency DAILY (identifier 3), default
    interval, no until bound, no by-field filters, bounded by count, stepping
    one day of 86400 seconds from dtstart; rules outside this fragment are not
    modelled and give none. -/
def ruleOccurrences (re : RepeatedEventModel) (dtstart : Int) : Option (List Int) :=
  match re.ids with
  | none => none
  | some ids =>
    if ids.freqId == some 3 && re.intervalRaw.isNone && re.untilRaw.isNone &&
       ids.bysetposIds.isNone && ids.bymonthIds.isNone && ids.bymonthdayIds.isNone &&
       ids.byyeardayIds.isNone && ids.byweeknoId.isNone && ids.byweekdayIds.isNone &&
       ids.byhourIds.isNone && ids.byminuteIds.isNone && ids.bysecondIds.isNone then
      match re.count with
      | some n => some ((List.range n.toNat).map (fun k => dtstart + 86400 * (k : Int)))
      | none => none
    else none

/-- Modelled from the spec: the dateutil rruleset built in Event init from the
    base recurrence rule, the exclusion rule and the explicit exclusion dates
    keeps exactly the base occurrences that neither the exclusion rule
    produces nor the exclusion dates list, in the base order. -/
def rulesetOccurrences (base exruleOccs exdates : List Int) : List Int :=
  base.filter (fun dt => decide (¬ dt ∈ exruleOccs ∧ ¬ dt ∈ exdates))

/-- The RepeatedEvent attributes produced by compiling FREQ=DAILY;COUNT=3. -/
def reDaily3 : RepeatedEventModel :=
  ⟨none, some 3, none,
   some ⟨some 3, some 0, none, none, none, none, none, none, none, none, none⟩⟩

/-- One component of a well-formed period expression: the digit string
    followed by its marker letter, or nothing when the component is absent. -/
def compSec : Option (List Char) → Char → List Char
  | none, _ => []
  | some ds, mark => ds ++ [mark]

/-- The time section of a well-formed period expression: absent exactly when
    no time component is present. -/
def tSection (h m s : Option (List Char)) : List Char :=
  if h.isNone && (m.isNone && s.isNone) then []
  else 'T' :: (compSec h 'H' ++ (compSec m 'M' ++ compSec s 'S'))

/-- A well-formed period expression of the shape P, optional weeks, optional
    days, optional time section with optional hours, minutes and seconds,
    assembled from the optional digit strings of its components. -/
def mkPeriod (w d h m s : Option (List Char)) : List Char :=
  'P' :: (compSec w 'W' ++ (compSec d 'D' ++ tSection h m s))

/-- A well-formed component: absent, or a nonempty string of decimal digits. -/
def okComp : Option (List Char) → Bool
  | none => true
  | some ds => !ds.isEmpty && ds.all Char.isDigit

/-- The numeric value a component contributes: zero when absent. -/
def optVal : Option (List Char) → Nat
  | none => 0
  | some ds => digitsVal ds

/-- Claim C2: the code path, evaluated at failing inputs.  Compiling a rule
    whose by-field carries a valid numeric value (BYMONTH=6, BYHOUR=9) or a
    BYDAY value with a leading ordinal (2FR) raises KeyError in getDateutilId,
    because the dateutil_ids table only holds frequency names and the seven
    plain weekday codes; a plain weekday list compiles fine. -/
theorem byfield_lookup_keyerror :
    mkRepeatedEvent ("FREQ=YEARLY;BYMONTH=6".data) = .error (.keyError ("6".data)) ∧
    mkRepeatedEvent ("FREQ=MONTHLY;BYDAY=2FR".data) = .error (.keyError ("2FR".data)) ∧
    mkRepeatedEvent ("FREQ=HOURLY;BYHOUR=9".data) = .error (.keyError ("9".data)) ∧
    (mkRepeatedEvent ("FREQ=WEEKLY;BYDAY=MO,WE".data)).toOption.isSome = true := by
  exact ⟨by decide, by decide, by decide, by decide⟩

/-- Claim C3: the code path, evaluated at the failing input.  For an event
    with a bare-date start and neither DTEND nor DURATION, the isAllDay
    classification itself would return true, but constructing the Event
    raises AttributeError first: datetime_dtend is never assigned and the
    formatted_dtend line reads it. -/
theorem allday_construction_attribute_error :
    eventDerive zUtcModel 0 none none = .error .attributeError ∧
    eventIsAllDay ("VALUE=DATE:20240101".data) none none = true := by
  exact ⟨rfl, by decide⟩

/-- Claim C9: the code path, evaluated at the failing input.  The bysetpos
    attribute is extracted with the key BYMONTH, so on
    FREQ=MONTHLY;BYSETPOS=1;BYMONTH=2 it holds the BYMONTH value 2 although
    the BYSETPOS field parses to 1. -/
theorem bysetpos_extraction_reads_bymonth :
    (extractRRuleFields ("FREQ=MONTHLY;BYSETPOS=1;BYMONTH=2".data)).bysetpos =
      getRruleMatch ("FREQ=MONTHLY;BYSETPOS=1;BYMONTH=2".data) ("BYMONTH".data) ∧
    (extractRRuleFields ("FREQ=MONTHLY;BYSETPOS=1;BYMONTH=2".data)).bysetpos =
      some ("2".data) ∧
    getRruleMatch ("FREQ=MONTHLY;BYSETPOS=1;BYMONTH=2".data) ("BYSETPOS".data) =
      some ("1".data) := by
  exact ⟨rfl, by decide, by decide⟩

/-- Claim C1: the rule FREQ=DAILY;COUNT=3 compiles, and anchored at any start
    its enumeration yields exactly the three occurrences start, start plus one
    day and start plus two days: length 3, strictly increasing, no duplicates,
    first occurrence equal to the anchor. -/
theorem rrule_daily_count3_enumeration (start : Int) :
    mkRepeatedEvent ("FREQ=DAILY;COUNT=3".data) = .ok reDaily3 ∧
    ruleOccurrences reDaily3 start = some [start, start + 86400, start + 172800] ∧
    ([start, start + 86400, start + 172800] : List Int).length = 3 ∧
    List.Chain' (fun a b : Int => a < b) [start, start + 86400, start + 172800] ∧
    ([start, start + 86400, start + 172800] : List Int).head? = some start ∧
    ([start, start + 86400, start + 172800] : List Int).Nodup := by
  refine ⟨by decide, ?_, rfl, ?_, rfl, ?_⟩
  · calc ruleOccurrences reDaily3 start
        = some (([0, 1, 2] : List Nat).map (fun k => start + 86400 * (k : Int))) := rfl
      _ = some [start, start + 86400, start + 172800] := by norm_num
  · simp only [List.chain'_cons, List.chain'_singleton, and_true]
    omega
  · refine List.nodup_cons.mpr ⟨?_, List.nodup_cons.mpr ⟨?_, List.nodup_singleton _⟩⟩
    · simp only [List.mem_cons, List.mem_singleton, List.not_mem_nil, or_false, not_or]
      constructor <;> omega
    · simp only [List.mem_singleton]
      omega

/-- Claim C4: the combined occurrence set keeps exactly the base occurrences
    that the exclusion rule does not produce and the exclusion dates do not
    list, and it is a sublist of the base sequence, hence in the same
    ascending order. -/
theorem ruleset_exclusion (base exruleOccs exdates : List Int) :
    (∀ d : Int, d ∈ rulesetOccurrences base exruleOccs exdates ↔
      (d ∈ base ∧ ¬ d ∈ exruleOccs ∧ ¬ d ∈ exdates)) ∧
    List.Sublist (rulesetOccurrences base exruleOccs exdates) base := by
  constructor
  · intro d
    simp [rulesetOccurrences]
  · exact List.filter_sublist base

/-- Supporting fact: the fall-back zone resolves every wall-clock value to an
    instant that maps back to that wall-clock value, so it is a coherent
    model of a zone with a daylight-saving fall-back transition. -/
theorem fallBackZone_localize_consistent (w : Int) :
    fallBackZone.utcToLocal (fallBackZone.localToUtc w) = w := by
  simp only [fallBackZone, fallBackToLocal, fallBackToUtc]
  split_ifs <;> omega

/-- Claim C5 counterexample: in the fall-back zone, the UTC instant 1800
    seconds before the transition has the ambiguous wall-clock time 5400,
    which the standard disambiguation resolves to the standard-time instant
    1800, not back to the original instant. -/
theorem utc_roundtrip_counterexample :
    datetimeToZulu fallBackZone (standardizeDatetime fallBackZone (some ⟨-1800, true⟩)) =
      some 1800 ∧
    ¬ datetimeToZulu fallBackZone (standardizeDatetime fallBackZone (some ⟨-1800, true⟩)) =
      some (-1800) := by
  exact ⟨by decide, by decide⟩

/-- Claim C5 as amended: standardize followed by toUtcString returns the same
    instant whenever the zone resolves the resulting wall-clock time
    consistently and that wall-clock time is unambiguous (a unique UTC instant
    maps to it); in particular for every fixed-offset zone. -/
theorem utc_roundtrip_unambiguous (z : SpecTimezone) (i : Int)
    (hcons : z.utcToLocal (z.localToUtc (z.utcToLocal i)) = z.utcToLocal i)
    (huniq : ∀ j : Int, z.utcToLocal j = z.utcToLocal i → j = i) :
    datetimeToZulu z (standardizeDatetime z (some ⟨i, true⟩)) = some i := by
  have h : z.localToUtc (z.utcToLocal i) = i := huniq _ hcons
  simp [datetimeToZulu, standardizeDatetime, standardizeTok, h]

theorem utc_roundtrip_unambiguous_witness :
    datetimeToZulu zUtcModel (standardizeDatetime zUtcModel (some ⟨5, true⟩)) = some 5 := by
  exact utc_roundtrip_unambiguous zUtcModel 5 rfl (fun j h => h)

/-- Claim C6 counterexample: FREQ=DAILY;COUNT=0 contains a COUNT field, the
    constructed RepeatedEvent is fine, yet isForever returns true because the
    converted count 0 is falsy. -/
theorem isforever_count_zero :
    (mkRepeatedEvent ("FREQ=DAILY;COUNT=0".data)).toOption.map
      RepeatedEventModel.isForever = some true ∧
    getRruleMatch ("FREQ=DAILY;COUNT=0".data) ("COUNT".data) = some ("0".data) := by
  exact ⟨by decide, by decide⟩

/-- Inversion of a successful RepeatedEvent construction: the until attribute
    is the extracted UNTIL value and the count attribute is the int conversion
    of the extracted COUNT value. -/
theorem mkRepeatedEvent_ok_until_count (s : List Char) (re : RepeatedEventModel)
    (h : mkRepeatedEvent s = .ok re) :
    re.untilRaw = getRruleMatch s ("UNTIL".data) ∧
    pyIntOpt (getRruleMatch s ("COUNT".data)) = .ok re.count := by
  cases s with
  | nil =>
    simp only [mkRepeatedEvent, Except.ok.injEq] at h
    subst h
    exact ⟨rfl, rfl⟩
  | cons x rest =>
    simp only [mkRepeatedEvent] at h
    cases hc : pyIntOpt (extractRRuleFields (x :: rest)).count with
    | error e =>
      rw [hc] at h
      exact absurd h (by simp)
    | ok cnt =>
      rw [hc] at h
      cases hk : compileIds (extractRRuleFields (x :: rest)) with
      | error e =>
        rw [hk] at h
        exact absurd h (by simp)
      | ok ids =>
        rw [hk] at h
        simp only [Except.ok.injEq] at h
        subst h
        exact ⟨rfl, hc⟩

/-- Claim C6 as amended: for every rule expression whose construction
    succeeds, isForever is true exactly when the expression has no UNTIL field
    with a nonempty value and no COUNT field whose value parses to a nonzero
    integer (an empty-valued field, or COUNT=0, counts as absent). -/
theorem isforever_iff_fields (s : List Char) (re : RepeatedEventModel)
    (h : mkRepeatedEvent s = .ok re) :
    re.isForever = true ↔
      ((∀ v, getRruleMatch s ("UNTIL".data) = some v → v = []) ∧
       (∀ v, getRruleMatch s ("COUNT".data) = some v → v = [] ∨ pyInt v = .ok 0)) := by
  obtain ⟨hu, hc⟩ := mkRepeatedEvent_ok_until_count s re h
  have hU : pyTruthyS (getRruleMatch s ("UNTIL".data)) = false ↔
      (∀ v, getRruleMatch s ("UNTIL".data) = some v → v = []) := by
    cases hg : getRruleMatch s ("UNTIL".data) with
    | none => simp [pyTruthyS]
    | some v =>
      cases v with
      | nil => simp [pyTruthyS]
      | cons c cs =>
        simp only [pyTruthyS]
        constructor
        · intro h'
          exact absurd h' (by simp)
        · intro hAll
          have := hAll (c :: cs) rfl
          simp at this
  have hC : pyTruthyI re.count = false ↔
      (∀ v, getRruleMatch s ("COUNT".data) = some v → v = [] ∨ pyInt v = .ok 0) := by
    cases hg : getRruleMatch s ("COUNT".data) with
    | none =>
      rw [hg] at hc
      have hrc : re.count = none :=
        (Except.ok.inj (show (Except.ok (none : Option Int) : Except PyErr (Option Int)) =
          .ok re.count from hc)).symm
      rw [hrc]
      simp [pyTruthyI]
    | some v =>
      rw [hg] at hc
      cases v with
      | nil =>
        have hrc : re.count = none :=
          (Except.ok.inj (show (Except.ok (none : Option Int) : Except PyErr (Option Int)) =
            .ok re.count from hc)).symm
        rw [hrc]
        constructor
        · intro _ v hv
          exact Or.inl (Option.some.inj hv).symm
        · intro _
          simp [pyTruthyI]
      | cons c cs =>
        rw [show pyIntOpt (some (c :: cs)) = (pyInt (c :: cs)).map some from rfl] at hc
        cases hp : pyInt (c :: cs) with
        | error e =>
          rw [hp] at hc
          exact absurd hc (by simp [Except.map])
        | ok n =>
          rw [hp] at hc
          have hrc : re.count = some n :=
            (Except.ok.inj (show (Except.ok (some n) : Except PyErr (Option Int)) =
              .ok re.count from hc)).symm
          rw [hrc]
          constructor
          · intro h' v hv
            right
            have hn : n = 0 := by simpa [pyTruthyI] using h'
            have hveq : v = c :: cs := (Option.some.inj hv).symm
            rw [hveq, hp, hn]
          · intro hAll
            rcases hAll (c :: cs) rfl with h1 | h2
            · exact absurd h1 (by simp)
            · rw [hp] at h2
              have hn : n = 0 := Except.ok.inj h2
              simp [pyTruthyI, hn]
  have hsplit : re.isForever = true ↔
      (pyTruthyS re.untilRaw = false ∧ pyTruthyI re.count = false) := by
    unfold RepeatedEventModel.isForever
    cases pyTruthyS re.untilRaw <;> cases pyTruthyI re.count <;> simp
  rw [hsplit, hu, hU, hC]

theorem isforever_iff_fields_witness :
    (mkRepeatedEvent ("FREQ=DAILY".data)).toOption.map
      RepeatedEventModel.isForever = some true := by
  cases h : mkRepeatedEvent ("FREQ=DAILY".data) with
  | error e =>
    have hs : (mkRepeatedEvent ("FREQ=DAILY".data)).toOption.isSome = true := by decide
    rw [h] at hs
    simp [Except.toOption] at hs
  | ok re =>
    have hiff := isforever_iff_fields ("FREQ=DAILY".data) re h
    have h1 : ∀ v, getRruleMatch ("FREQ=DAILY".data) ("UNTIL".data) = some v → v = [] := by
      intro v hv
      rw [show getRruleMatch ("FREQ=DAILY".data) ("UNTIL".data) = none from by decide] at hv
      cases hv
    have h2 : ∀ v, getRruleMatch ("FREQ=DAILY".data) ("COUNT".data) = some v →
        v = [] ∨ pyInt v = .ok 0 := by
      intro v hv
      rw [show getRruleMatch ("FREQ=DAILY".data) ("COUNT".data) = none from by decide] at hv
      cases hv
    have hfor := hiff.mpr ⟨h1, h2⟩
    show some re.isForever = some true
    rw [hfor]

/-- Claim C8: whenever a DTEND token is present the derived end is the parsed
    DTEND and the derived duration is overwritten with end minus start,
    whatever the DURATION token holds; only when DTEND is absent does a
    nonempty DURATION token determine the derived end and duration. -/
theorem dtend_overrides_duration (z : SpecTimezone) (st : Int) (t : DtToken)
    (dur : Option (List Char)) (ds : List Char) (hds : ds ≠ []) :
    eventDerive z st (some t) dur = .ok (standardizeTok z t, standardizeTok z t - st) ∧
    eventDerive z st none (some ds) =
      .ok (st + IsoPeriods.parse ds, IsoPeriods.parse ds) := by
  constructor
  · rfl
  · cases ds with
    | nil => exact absurd rfl hds
    | cons c cs => rfl

theorem dtend_overrides_duration_witness :
    eventDerive zUtcModel 100 (some ⟨200, false⟩) (some ("PT1H".data)) = .ok (200, 100) ∧
    eventDerive zUtcModel 100 none (some ("PT1H".data)) = .ok (3700, 3600) := by
  have h := dtend_overrides_duration zUtcModel 100 ⟨200, false⟩ (some ("PT1H".data))
    ("PT1H".data) (by decide)
  exact ⟨h.1.trans (by decide), h.2.trans (by decide)⟩

/-- Claim C10: the period parser is a total function; on the empty string, and
    more generally on any string in which no component pattern matches, it
    returns the zero duration.  Event construction relies on this by parsing
    the empty string whenever the DURATION token is absent. -/
theorem parse_total_and_zero :
    IsoPeriods.parse [] = 0 ∧
    ∀ s : List Char,
      IsoPeriods.searchWeeks s = none → IsoPeriods.searchDays s = none →
      IsoPeriods.searchHours s = none → IsoPeriods.searchMinutes s = none →
      IsoPeriods.searchSeconds s = none → IsoPeriods.parse s = 0 := by
  constructor
  · rfl
  · intro s h1 h2 h3 h4 h5
    simp [IsoPeriods.parse, h1, h2, h3, h4, h5]

theorem parse_total_and_zero_witness : IsoPeriods.parse ("hello world".data) = 0 := by
  exact parse_total_and_zero.2 ("hello world".data) (by decide) (by decide) (by decide)
    (by decide) (by decide)

namespace IsoPeriods

theorem digit_ne_of_not_digit {c t : Char} (hc : c.isDigit = true)
    (ht : t.isDigit = false) : c ≠ t := by
  intro h
  rw [h, ht] at hc
  exact Bool.noConfusion hc

theorem all_digits_mem {ds : List Char} (hall : ds.all Char.isDigit = true)
    {a : Char} (ha : a ∈ ds) : a.isDigit = true := by
  rw [List.all_eq_true] at hall
  exact hall a ha

theorem okComp_all {ds : List Char} (h : okComp (some ds) = true) :
    ds.all Char.isDigit = true := by
  simp only [okComp, Bool.and_eq_true] at h
  exact h.2

theorem okComp_ne {ds : List Char} (h : okComp (some ds) = true) : ds ≠ [] := by
  intro hnil
  subst hnil
  simp [okComp] at h

theorem takeWhile_digits_append {ds : List Char} (hall : ds.all Char.isDigit = true)
    {c : Char} (hc : c.isDigit = false) (rest : List Char) :
    (ds ++ c :: rest).takeWhile Char.isDigit = ds := by
  induction ds with
  | nil => simp [List.takeWhile_cons, hc]
  | cons x xs ih =>
    rw [List.all_cons, Bool.and_eq_true] at hall
    simp [List.takeWhile_cons, hall.1, ih hall.2]

theorem dropWhile_digits_append {ds : List Char} (hall : ds.all Char.isDigit = true)
    {c : Char} (hc : c.isDigit = false) (rest : List Char) :
    (ds ++ c :: rest).dropWhile Char.isDigit = c :: rest := by
  induction ds with
  | nil => simp [List.dropWhile_cons, hc]
  | cons x xs ih =>
    rw [List.all_cons, Bool.and_eq_true] at hall
    simp [List.dropWhile_cons, hall.1, ih hall.2]

theorem scanNum_found {ds : List Char} (b : Bool) {term : Char} (rest : List Char)
    (hne : ds ≠ []) (hall : ds.all Char.isDigit = true) (hterm : term.isDigit = false) :
    scanNum b term (ds ++ term :: rest) = some ds := by
  cases ds with
  | nil => exact absurd rfl hne
  | cons x xs =>
    have hx : x.isDigit = true := all_digits_mem hall (List.mem_cons_self x xs)
    have hxT : (x == 'T') = false :=
      beq_eq_false_iff_ne.mpr (digit_ne_of_not_digit hx (by decide))
    have hdw := dropWhile_digits_append hall hterm rest
    have htw := takeWhile_digits_append hall hterm rest
    simp only [List.cons_append] at hdw htw ⊢
    simp [scanNum, hxT, hx, hdw, htw]

theorem scanNum_skip {ds : List Char} (b : Bool) {term c : Char} (rest : List Char)
    (hall : ds.all Char.isDigit = true) (hc : c.isDigit = false)
    (hct : c ≠ term) (hbT : (b && (c == 'T')) = false) :
    scanNum b term (ds ++ c :: rest) = scanNum b term rest := by
  induction ds with
  | nil =>
    simp only [List.nil_append]
    simp [scanNum, hbT, hc]
  | cons x xs ih =>
    have hx : x.isDigit = true := all_digits_mem hall (List.mem_cons_self x xs)
    have hxs : xs.all Char.isDigit = true := by
      rw [List.all_cons, Bool.and_eq_true] at hall
      exact hall.2
    have hxT : (x == 'T') = false :=
      beq_eq_false_iff_ne.mpr (digit_ne_of_not_digit hx (by decide))
    have hdw := dropWhile_digits_append hall hc rest
    simp only [List.cons_append] at hdw ⊢
    simp [scanNum, hxT, hx, hdw, hct, ih hxs]

theorem scanNum_skip_compSec (b : Bool) {o : Option (List Char)} {mark term : Char}
    (ho : okComp o = true) (hmd : mark.isDigit = false) (hmt : mark ≠ term)
    (hbT : (b && (mark == 'T')) = false) (rest : List Char) :
    scanNum b term (compSec o mark ++ rest) = scanNum b term rest := by
  cases o with
  | none => simp [compSec]
  | some ds =>
    rw [show compSec (some ds) mark ++ rest = ds ++ mark :: rest from by simp [compSec]]
    exact scanNum_skip b rest (okComp_all ho) hmd hmt hbT

theorem scanNum_stop_tSection (term : Char) (h m s : Option (List Char)) :
    scanNum true term (tSection h m s) = none := by
  cases hb : (h.isNone && (m.isNone && s.isNone)) with
  | true => simp [tSection, hb, scanNum]
  | false => simp [tSection, hb, scanNum]

theorem searchAfterT_noT {s : List Char} (term : Char) (h : ¬ 'T' ∈ s) :
    searchAfterT term s = none := by
  induction s with
  | nil => rfl
  | cons x rest ih =>
    have hx : (x == 'T') = false := by
      refine beq_eq_false_iff_ne.mpr ?_
      intro he
      exact h (by rw [← he]; exact List.mem_cons_self x rest)
    have hr : ¬ 'T' ∈ rest := fun hmem => h (List.mem_cons_of_mem x hmem)
    simp [searchAfterT, hx, ih hr]

theorem searchAfterT_found {pre post : List Char} (term : Char)
    (hpre : ¬ 'T' ∈ pre) (hpost : ¬ 'T' ∈ post) :
    searchAfterT term (pre ++ 'T' :: post) = scanNum false term post := by
  induction pre with
  | nil =>
    simp only [List.nil_append]
    simp [searchAfterT, searchAfterT_noT term hpost]
  | cons x xs ih =>
    have hx : (x == 'T') = false := by
      refine beq_eq_false_iff_ne.mpr ?_
      intro he
      exact hpre (by rw [← he]; exact List.mem_cons_self x xs)
    have hxs : ¬ 'T' ∈ xs := fun hmem => hpre (List.mem_cons_of_mem x hmem)
    simp only [List.cons_append]
    simp [searchAfterT, hx, ih hxs]

theorem currentLine_noNL {s : List Char} (h : ¬ '\n' ∈ s) : currentLine s = s := by
  induction s with
  | nil => rfl
  | cons x rest ih =>
    have hx : (x == '\n') = false := by
      refine beq_eq_false_iff_ne.mpr ?_
      intro he
      exact h (by rw [← he]; exact List.mem_cons_self x rest)
    have hr : ¬ '\n' ∈ rest := fun hmem => h (List.mem_cons_of_mem x hmem)
    have ih2 := ih hr
    simp only [currentLine] at ih2 ⊢
    simp [List.takeWhile_cons, hx, ih2]

theorem tailsAfterNL_eq_nil {s : List Char} (h : ¬ '\n' ∈ s) : tailsAfterNL s = [] := by
  induction s with
  | nil => rfl
  | cons x rest ih =>
    have hx : (x == '\n') = false := by
      refine beq_eq_false_iff_ne.mpr ?_
      intro he
      exact h (by rw [← he]; exact List.mem_cons_self x rest)
    have hr : ¬ '\n' ∈ rest := fun hmem => h (List.mem_cons_of_mem x hmem)
    simp [tailsAfterNL, hx, ih hr]

theorem tryLineStarts_single (f : List Char → Option (List Char)) (body : List Char) :
    tryLineStarts f [('P' :: body)] = f body := by
  have h0 : tryLineStarts f [('P' :: body)] =
      (match f body with
       | some run => some run
       | none => tryLineStarts f []) := rfl
  rw [h0]
  cases hf : f body with
  | some r => rfl
  | none => rfl

theorem searchPAnchored_noNL (f : List Char → Option (List Char)) {body : List Char}
    (h : ¬ '\n' ∈ ('P' :: body)) :
    searchPAnchored f ('P' :: body) = f body := by
  rw [searchPAnchored, lineSuffixes, tailsAfterNL_eq_nil h, tryLineStarts_single]

theorem not_mem_compSec {c : Char} {o : Option (List Char)} {mark : Char}
    (ho : okComp o = true) (hcd : c.isDigit = false) (hcm : c ≠ mark) :
    ¬ c ∈ compSec o mark := by
  cases o with
  | none => simp [compSec]
  | some ds =>
    simp only [compSec, List.mem_append, List.mem_singleton]
    rintro (hin | he)
    · have hdig := all_digits_mem (okComp_all ho) hin
      rw [hcd] at hdig
      exact Bool.noConfusion hdig
    · exact hcm he

theorem not_mem_tSection {c : Char} {h m s : Option (List Char)}
    (hh : okComp h = true) (hm : okComp m = true) (hs : okComp s = true)
    (hcd : c.isDigit = false) (hT : c ≠ 'T') (hH : c ≠ 'H') (hM : c ≠ 'M')
    (hS : c ≠ 'S') : ¬ c ∈ tSection h m s := by
  cases hb : (h.isNone && (m.isNone && s.isNone)) with
  | true => simp [tSection, hb]
  | false =>
    rw [show tSection h m s = 'T' :: (compSec h 'H' ++ (compSec m 'M' ++ compSec s 'S'))
      from by simp [tSection, hb]]
    intro hmem
    rcases List.mem_cons.mp hmem with he | hmem2
    · exact hT he
    · rcases List.mem_append.mp hmem2 with h1 | h23
      · exact not_mem_compSec hh hcd hH h1
      · rcases List.mem_append.mp h23 with h2 | h3
        · exact not_mem_compSec hm hcd hM h2
        · exact not_mem_compSec hs hcd hS h3

theorem not_mem_mkPeriod {c : Char} {w d h m s : Option (List Char)}
    (hw : okComp w = true) (hd : okComp d = true) (hh : okComp h = true)
    (hm : okComp m = true) (hs : okComp s = true) (hcd : c.isDigit = false)
    (hP : c ≠ 'P') (hW : c ≠ 'W') (hD : c ≠ 'D') (hT : c ≠ 'T') (hH : c ≠ 'H')
    (hM : c ≠ 'M') (hS : c ≠ 'S') : ¬ c ∈ mkPeriod w d h m s := by
  simp only [mkPeriod]
  intro hmem
  rcases List.mem_cons.mp hmem with he | hmem2
  · exact hP he
  · rcases List.mem_append.mp hmem2 with h1 | h23
    · exact not_mem_compSec hw hcd hW h1
    · rcases List.mem_append.mp h23 with h2 | h3
      · exact not_mem_compSec hd hcd hD h2
      · exact not_mem_tSection hh hm hs hcd hT hH hM hS h3

theorem searchWeeks_mkPeriod {w d h m s : Option (List Char)}
    (hw : okComp w = true) (hd : okComp d = true) (hh : okComp h = true)
    (hm : okComp m = true) (hs : okComp s = true) :
    searchWeeks (mkPeriod w d h m s) = w := by
  have hnl : ¬ '\n' ∈ mkPeriod w d h m s :=
    not_mem_mkPeriod hw hd hh hm hs (by decide) (by decide) (by decide) (by decide)
      (by decide) (by decide) (by decide) (by decide)
  rw [searchWeeks]
  rw [show mkPeriod w d h m s =
      'P' :: (compSec w 'W' ++ (compSec d 'D' ++ tSection h m s)) from rfl] at hnl ⊢
  rw [searchPAnchored_noNL _ hnl]
  cases w with
  | some wds =>
    rw [show compSec (some wds) 'W' ++ (compSec d 'D' ++ tSection h m s) =
        wds ++ 'W' :: (compSec d 'D' ++ tSection h m s) from by simp [compSec]]
    exact scanNum_found true _ (okComp_ne hw) (okComp_all hw) (by decide)
  | none =>
    rw [show compSec (none : Option (List Char)) 'W' ++ (compSec d 'D' ++ tSection h m s) =
        compSec d 'D' ++ tSection h m s from by simp [compSec]]
    rw [scanNum_skip_compSec true hd (by decide) (by decide) (by decide) _]
    exact scanNum_stop_tSection 'W' h m s

theorem searchDays_mkPeriod {w d h m s : Option (List Char)}
    (hw : okComp w = true) (hd : okComp d = true) (hh : okComp h = true)
    (hm : okComp m = true) (hs : okComp s = true) :
    searchDays (mkPeriod w d h m s) = d := by
  have hnl : ¬ '\n' ∈ mkPeriod w d h m s :=
    not_mem_mkPeriod hw hd hh hm hs (by decide) (by decide) (by decide) (by decide)
      (by decide) (by decide) (by decide) (by decide)
  rw [searchDays]
  rw [show mkPeriod w d h m s =
      'P' :: (compSec w 'W' ++ (compSec d 'D' ++ tSection h m s)) from rfl] at hnl ⊢
  rw [searchPAnchored_noNL _ hnl]
  rw [scanNum_skip_compSec true hw (by decide) (by decide) (by decide) _]
  cases d with
  | some dds =>
    rw [show compSec (some dds) 'D' ++ tSection h m s =
        dds ++ 'D' :: tSection h m s from by simp [compSec]]
    exact scanNum_found true _ (okComp_ne hd) (okComp_all hd) (by decide)
  | none =>
    rw [show compSec (none : Option (List Char)) 'D' ++ tSection h m s =
        tSection h m s from by simp [compSec]]
    exact scanNum_stop_tSection 'D' h m s

theorem noT_front {w d : Option (List Char)} (hw : okComp w = true)
    (hd : okComp d = true) :
    ¬ 'T' ∈ (compSec w 'W' ++ compSec d 'D') := by
  intro hmem
  rcases List.mem_append.mp hmem with h1 | h2
  · exact not_mem_compSec hw (by decide) (by decide) h1
  · exact not_mem_compSec hd (by decide) (by decide) h2

theorem noT_timeblocks {h m s : Option (List Char)} (hh : okComp h = true)
    (hm : okComp m = true) (hs : okComp s = true) :
    ¬ 'T' ∈ (compSec h 'H' ++ (compSec m 'M' ++ compSec s 'S')) := by
  intro hmem
  rcases List.mem_append.mp hmem with h1 | h23
  · exact not_mem_compSec hh (by decide) (by decide) h1
  · rcases List.mem_append.mp h23 with h2 | h3
    · exact not_mem_compSec hm (by decide) (by decide) h2
    · exact not_mem_compSec hs (by decide) (by decide) h3

theorem searchTime_mkPeriod_body {w d h m s : Option (List Char)}
    (hw : okComp w = true) (hd : okComp d = true) (hh : okComp h = true)
    (hm : okComp m = true) (hs : okComp s = true) (term : Char)
    (hb : (h.isNone && (m.isNone && s.isNone)) = false) :
    searchAfterT term (compSec w 'W' ++ (compSec d 'D' ++ tSection h m s)) =
      scanNum false term (compSec h 'H' ++ (compSec m 'M' ++ compSec s 'S')) := by
  rw [show tSection h m s =
      'T' :: (compSec h 'H' ++ (compSec m 'M' ++ compSec s 'S')) from by
    simp [tSection, hb]]
  rw [show compSec w 'W' ++ (compSec d 'D' ++
        ('T' :: (compSec h 'H' ++ (compSec m 'M' ++ compSec s 'S')))) =
      (compSec w 'W' ++ compSec d 'D') ++
        'T' :: (compSec h 'H' ++ (compSec m 'M' ++ compSec s 'S')) from by
    rw [List.append_assoc]]
  exact searchAfterT_found term (noT_front hw hd) (noT_timeblocks hh hm hs)

theorem searchTime_mkPeriod_none {w d h m s : Option (List Char)}
    (hw : okComp w = true) (hd : okComp d = true) (term : Char)
    (hb : (h.isNone && (m.isNone && s.isNone)) = true) :
    searchAfterT term (compSec w 'W' ++ (compSec d 'D' ++ tSection h m s)) = none := by
  rw [show tSection h m s = [] from by simp [tSection, hb]]
  refine searchAfterT_noT term ?_
  intro hmem
  rcases List.mem_append.mp hmem with h1 | h23
  · exact not_mem_compSec hw (by decide) (by decide) h1
  · rcases List.mem_append.mp h23 with h2 | h3
    · exact not_mem_compSec hd (by decide) (by decide) h2
    · exact absurd h3 (List.not_mem_nil 'T')

theorem searchHours_mkPeriod {w d h m s : Option (List Char)}
    (hw : okComp w = true) (hd : okComp d = true) (hh : okComp h = true)
    (hm : okComp m = true) (hs : okComp s = true) :
    searchHours (mkPeriod w d h m s) = h := by
  have hnl : ¬ '\n' ∈ mkPeriod w d h m s :=
    not_mem_mkPeriod hw hd hh hm hs (by decide) (by decide) (by decide) (by decide)
      (by decide) (by decide) (by decide) (by decide)
  rw [searchHours]
  rw [show mkPeriod w d h m s =
      'P' :: (compSec w 'W' ++ (compSec d 'D' ++ tSection h m s)) from rfl] at hnl ⊢
  rw [searchPAnchored_noNL _ hnl]
  have hnb : ¬ '\n' ∈ (compSec w 'W' ++ (compSec d 'D' ++ tSection h m s)) :=
    fun hmem => hnl (List.mem_cons_of_mem 'P' hmem)
  rw [currentLine_noNL hnb]
  cases hb : (h.isNone && (m.isNone && s.isNone)) with
  | true =>
    have hb2 := hb
    simp only [Bool.and_eq_true, Option.isNone_iff_eq_none] at hb2
    rw [searchTime_mkPeriod_none hw hd 'H' hb, hb2.1]
  | false =>
    rw [searchTime_mkPeriod_body hw hd hh hm hs 'H' hb]
    cases h with
    | some hds =>
      rw [show compSec (some hds) 'H' ++ (compSec m 'M' ++ compSec s 'S') =
          hds ++ 'H' :: (compSec m 'M' ++ compSec s 'S') from by simp [compSec]]
      exact scanNum_found false _ (okComp_ne hh) (okComp_all hh) (by decide)
    | none =>
      rw [show compSec (none : Option (List Char)) 'H' ++ (compSec m 'M' ++ compSec s 'S') =
          compSec m 'M' ++ compSec s 'S' from by simp [compSec]]
      rw [@scanNum_skip_compSec false m 'M' 'H' hm (by decide) (by decide) (by decide)
        (compSec s 'S')]
      rw [show compSec s 'S' = compSec s 'S' ++ ([] : List Char) from by simp]
      rw [@scanNum_skip_compSec false s 'S' 'H' hs (by decide) (by decide) (by decide) []]
      rfl

theorem searchMinutes_mkPeriod {w d h m s : Option (List Char)}
    (hw : okComp w = true) (hd : okComp d = true) (hh : okComp h = true)
    (hm : okComp m = true) (hs : okComp s = true) :
    searchMinutes (mkPeriod w d h m s) = m := by
  have hnl : ¬ '\n' ∈ mkPeriod w d h m s :=
    not_mem_mkPeriod hw hd hh hm hs (by decide) (by decide) (by decide) (by decide)
      (by decide) (by decide) (by decide) (by decide)
  rw [searchMinutes]
  rw [show mkPeriod w d h m s =
      'P' :: (compSec w 'W' ++ (compSec d 'D' ++ tSection h m s)) from rfl] at hnl ⊢
  rw [searchPAnchored_noNL _ hnl]
  have hnb : ¬ '\n' ∈ (compSec w 'W' ++ (compSec d 'D' ++ tSection h m s)) :=
    fun hmem => hnl (List.mem_cons_of_mem 'P' hmem)
  rw [currentLine_noNL hnb]
  cases hb : (h.isNone && (m.isNone && s.isNone)) with
  | true =>
    have hb2 := hb
    simp only [Bool.and_eq_true, Option.isNone_iff_eq_none] at hb2
    rw [searchTime_mkPeriod_none hw hd 'M' hb, hb2.2.1]
  | false =>
    rw [searchTime_mkPeriod_body hw hd hh hm hs 'M' hb]
    rw [@scanNum_skip_compSec false h 'H' 'M' hh (by decide) (by decide) (by decide)
      (compSec m 'M' ++ compSec s 'S')]
    cases m with
    | some mds =>
      rw [show compSec (some mds) 'M' ++ compSec s 'S' =
          mds ++ 'M' :: compSec s 'S' from by simp [compSec]]
      exact scanNum_found false _ (okComp_ne hm) (okComp_all hm) (by decide)
    | none =>
      rw [show compSec (none : Option (List Char)) 'M' ++ compSec s 'S' =
          compSec s 'S' from by simp [compSec]]
      rw [show compSec s 'S' = compSec s 'S' ++ ([] : List Char) from by simp]
      rw [@scanNum_skip_compSec false s 'S' 'M' hs (by decide) (by decide) (by decide) []]
      rfl

theorem searchSeconds_mkPeriod {w d h m s : Option (List Char)}
    (hw : okComp w = true) (hd : okComp d = true) (hh : okComp h = true)
    (hm : okComp m = true) (hs : okComp s = true) :
    searchSeconds (mkPeriod w d h m s) = s := by
  have hnl : ¬ '\n' ∈ mkPeriod w d h m s :=
    not_mem_mkPeriod hw hd hh hm hs (by decide) (by decide) (by decide) (by decide)
      (by decide) (by decide) (by decide) (by decide)
  rw [searchSeconds]
  rw [show mkPeriod w d h m s =
      'P' :: (compSec w 'W' ++ (compSec d 'D' ++ tSection h m s)) from rfl] at hnl ⊢
  rw [searchPAnchored_noNL _ hnl]
  have hnb : ¬ '\n' ∈ (compSec w 'W' ++ (compSec d 'D' ++ tSection h m s)) :=
    fun hmem => hnl (List.mem_cons_of_mem 'P' hmem)
  rw [currentLine_noNL hnb]
  cases hb : (h.isNone && (m.isNone && s.isNone)) with
  | true =>
    have hb2 := hb
    simp only [Bool.and_eq_true, Option.isNone_iff_eq_none] at hb2
    rw [searchTime_mkPeriod_none hw hd 'S' hb, hb2.2.2]
  | false =>
    rw [searchTime_mkPeriod_body hw hd hh hm hs 'S' hb]
    rw [@scanNum_skip_compSec false h 'H' 'S' hh (by decide) (by decide) (by decide)
      (compSec m 'M' ++ compSec s 'S')]
    rw [@scanNum_skip_compSec false m 'M' 'S' hm (by decide) (by decide) (by decide)
      (compSec s 'S')]
    cases s with
    | some sds =>
      rw [show compSec (some sds) 'S' = sds ++ 'S' :: ([] : List Char) from by
        simp [compSec]]
      exact scanNum_found false _ (okComp_ne hs) (okComp_all hs) (by decide)
    | none => rfl

theorem map_digitsVal_getD (o : Option (List Char)) :
    ((o.map digitsVal).getD 0) = optVal o := by
  cases o <;> rfl

/-- Claim C7: for every well-formed period expression, parse returns the
    duration equal to the sum of its present components, with every absent
    component contributing zero: in seconds, 604800 per week, 86400 per day,
    3600 per hour, 60 per minute and 1 per second. -/
theorem parse_mkPeriod (w d h m s : Option (List Char))
    (hw : okComp w = true) (hd : okComp d = true) (hh : okComp h = true)
    (hm : okComp m = true) (hs : okComp s = true) :
    parse (mkPeriod w d h m s) =
      Int.ofNat (604800 * optVal w + 86400 * optVal d + 3600 * optVal h +
        60 * optVal m + optVal s) := by
  simp only [parse]
  rw [searchWeeks_mkPeriod hw hd hh hm hs, searchDays_mkPeriod hw hd hh hm hs,
    searchHours_mkPeriod hw hd hh hm hs, searchMinutes_mkPeriod hw hd hh hm hs,
    searchSeconds_mkPeriod hw hd hh hm hs, map_digitsVal_getD, map_digitsVal_getD,
    map_digitsVal_getD, map_digitsVal_getD, map_digitsVal_getD]

theorem parse_mkPeriod_witness :
    parse ("PT1H30M".data) = 5400 ∧ parse ("P1W".data) = 604800 ∧
    parse ("P1DT1H".data) = 90000 := by
  refine ⟨?_, ?_, ?_⟩
  · have h := parse_mkPeriod none none (some ['1']) (some ['3', '0']) none
      (by decide) (by decide) (by decide) (by decide) (by decide)
    rw [show mkPeriod none none (some ['1']) (some ['3', '0']) none =
      "PT1H30M".data from by decide] at h
    rw [h]
    decide
  · have h := parse_mkPeriod (some ['1']) none none none none
      (by decide) (by decide) (by decide) (by decide) (by decide)
    rw [show mkPeriod (some ['1']) none none none none = "P1W".data from by decide] at h
    rw [h]
    decide
  · have h := parse_mkPeriod none (some ['1']) (some ['1']) none none
      (by decide) (by decide) (by decide) (by decide) (by decide)
    rw [show mkPeriod none (some ['1']) (some ['1']) none none =
      "P1DT1H".data from by decide] at h
    rw [h]
    decide

end IsoPeriods
